import Mathlib

/-!
Verification of the concurrent ATM transaction processor (src/main.go).

The program seeds a fixed map of accounts, spawns a producer reading CSV
rows into a channel, and a pool of 50 consumers that acquire a per-account
semaphore, apply a withdraw/deposit business rule to the shared map, and
release the semaphore.  Balances are embedded as rationals, the Go map as a
function from Int to Option account, and the concurrency primitives
(per-account weighted semaphores, the done channel) as explicit transition
systems.
-/

/-- Embeds the `account` struct of src/main.go (lines 18-22): id, name and
a monetary value (float64 in the source, modelled as a rational). -/
structure account where
  id : Int
  name : String
  value : ℚ
deriving DecidableEq

/-- Embeds the `transaction` struct of src/main.go (lines 24-29). -/
structure transaction where
  id : Int
  value : ℚ
  transactionType : Int
  userID : Int
deriving DecidableEq

/-- The seed account map literal of src/main.go lines 37-78, as an
association list in source order.  Note that the entry under key 8 stores
an account whose `id` field is 7, exactly as written in the source. -/
def seedAccounts : List (Int × account) :=
  [ (1, { id := 1, name := "Yuri", value := 200000 }),
    (2, { id := 2, name := "Raphael", value := 130000 }),
    (3, { id := 3, name := "Dalton", value := 150000 }),
    (4, { id := 4, name := "Maranhão", value := 170000 }),
    (5, { id := 5, name := "Fernando", value := 1 }),
    (6, { id := 6, name := "Cordeiro", value := 5000000 }),
    (7, { id := 7, name := "Christian", value := 20000 }),
    (8, { id := 7, name := "Paula", value := 27000 }) ]

/-- The shared ledger: a Go `map[int]account`, as a partial map. -/
abbrev Ledger := Int → Option account

/-- The global `accountList` map of src/main.go line 37, as a ledger. -/
def accountList : Ledger := fun k => seedAccounts.lookup k

/-- `const consumerCount int = 50` (src/main.go line 80). -/
def consumerCount : Nat := 50

/-- Number of semaphores created in main (src/main.go lines 231-233): one
per entry of the seed account map. -/
def semaphoreCount : Nat := seedAccounts.length

/-- Reading a Go map: a missing key yields the zero value of `account`. -/
def mapGet (ledger : Ledger) (k : Int) : account :=
  (ledger k).getD { id := 0, name := "", value := 0 }

/-- Writing a Go map entry (`accountList[k] = v`). -/
def mapPut (ledger : Ledger) (k : Int) (v : account) : Ledger :=
  fun x => if x = k then some v else ledger x

/-- Embeds `withdraw` (src/main.go lines 163-186): read the account for
`transactionData.userID`; if its value covers the transaction value, store
the account with the value decreased, otherwise leave the ledger as is.
(The sleep on line 165 and the mapMutex bracketing have no sequential
effect.) -/
def withdraw (transactionData : transaction) (ledger : Ledger) : Ledger :=
  let accountData := mapGet ledger transactionData.userID
  if accountData.value ≥ transactionData.value then
    mapPut ledger transactionData.userID
      { id := accountData.id, name := accountData.name,
        value := accountData.value - transactionData.value }
  else ledger

/-- Embeds `deposit` (src/main.go lines 188-208): unconditionally store the
account with the transaction value added. -/
def deposit (transactionData : transaction) (ledger : Ledger) : Ledger :=
  let accountData := mapGet ledger transactionData.userID
  mapPut ledger transactionData.userID
    { id := accountData.id, name := accountData.name,
      value := accountData.value + transactionData.value }

/-- The `switch transactionData.transactionType` dispatch of `consume`
(src/main.go lines 146-151): case 1 withdraws, case 2 deposits, any other
type is ignored. -/
def applyTransaction (ledger : Ledger) (transactionData : transaction) : Ledger :=
  if transactionData.transactionType = 1 then withdraw transactionData ledger
  else if transactionData.transactionType = 2 then deposit transactionData ledger
  else ledger

/-- Sequential application of a batch of transactions, in order, as a single
uncontended consumer performs it. -/
def applyAll (ledger : Ledger) (ts : List transaction) : Ledger :=
  ts.foldl applyTransaction ledger

/-- Result of one consume iteration: either a new ledger, or a fault (Go
runtime panic) leaving the ledger it was given untouched. -/
inductive StepResult where
  | ok (ledger : Ledger)
  | fault (ledger : Ledger)

/-- One iteration of the consume loop (src/main.go lines 138-157) for a
single transaction: the worker first indexes
`semaphores[transactionData.userID-1]` (line 141) with no bounds check, so
an index outside `[0, semaphoreCount)` is a runtime fault before any ledger
access; otherwise the transaction is dispatched. -/
def consumeStep (ledger : Ledger) (transactionData : transaction) : StepResult :=
  if 0 ≤ transactionData.userID - 1 ∧ transactionData.userID - 1 < (semaphoreCount : Int) then
    .ok (applyTransaction ledger transactionData)
  else .fault ledger

/-- Spec-side expression for claim C5: the sum of the amounts of the
deposit transactions (transactionType 2) in a batch. -/
def depositSum : List transaction → ℚ
  | [] => 0
  | t :: ts => (if t.transactionType = 2 then t.value else 0) + depositSum ts

/-- Spec-side expression for claim C5: the sum of the amounts of the
successfully-applied withdrawals of a batch run against a single account
whose balance starts at `b` — a withdrawal counts exactly when the running
balance at its application time covers its amount. -/
def appliedWithdrawSum : ℚ → List transaction → ℚ
  | _, [] => 0
  | b, t :: ts =>
    if t.transactionType = 1 then
      if b ≥ t.value then t.value + appliedWithdrawSum (b - t.value) ts
      else appliedWithdrawSum b ts
    else if t.transactionType = 2 then appliedWithdrawSum (b + t.value) ts
    else appliedWithdrawSum b ts

/-- One CSV record with the four fields read by `produce`
(src/main.go lines 99-121): transaction id, amount, type code, user id. -/
structure Row where
  c0 : String
  c1 : String
  c2 : String
  c3 : String
deriving DecidableEq

/-- A non-empty all-digit character list read as a natural number;
any other list fails.  Shared base of the numeric field parsers. -/
def parseNatDigits (cs : List Char) : Option Nat :=
  if cs ≠ [] ∧ cs.all Char.isDigit then
    some (cs.foldl (fun a c => 10 * a + (c.toNat - 48)) 0)
  else none

/-- Model of Go `strconv.Atoi` as used on the id, type and user-id fields:
an optional sign followed by decimal digits; anything else fails. -/
def Atoi (s : String) : Option Int :=
  match s.data with
  | '+' :: cs => (parseNatDigits cs).map (fun n => (n : Int))
  | '-' :: cs => (parseNatDigits cs).map (fun n => -(n : Int))
  | cs => (parseNatDigits cs).map (fun n => (n : Int))

/-- Unsigned decimal literal `digits[.digits]` as a rational. -/
def parseDecimal (cs : List Char) : Option ℚ :=
  if '.' ∈ cs then
    let i := cs.indexOf '.'
    let intPart := cs.take i
    let fracPart := cs.drop (i + 1)
    match parseNatDigits intPart, parseNatDigits fracPart with
    | some n, some f => some ((n : ℚ) + (f : ℚ) / (10 : ℚ) ^ fracPart.length)
    | _, _ => none
  else (parseNatDigits cs).map (fun n => (n : ℚ))

/-- Model of Go `strconv.ParseFloat` on the amount field: an optionally
signed decimal literal; anything else fails. -/
def parseFloat64 (s : String) : Option ℚ :=
  match s.data with
  | '+' :: cs => parseDecimal cs
  | '-' :: cs => (parseDecimal cs).map (fun q => -q)
  | cs => parseDecimal cs

/-- The per-row body of `produce` (src/main.go lines 99-124): parse the four
fields in order; if every parse succeeds the row becomes a transaction,
otherwise the row is malformed (the source calls log.Fatal at the first
failing field). -/
def parseRow (row : Row) : Option transaction :=
  match Atoi row.c0, parseFloat64 row.c1, Atoi row.c2, Atoi row.c3 with
  | some i, some v, some ty, some uid =>
      some { id := i, value := v, transactionType := ty, userID := uid }
  | _, _, _, _ => none

/-- How a run of `produce` ends: `closed` models reaching EOF and closing
the channel (src/main.go line 131); `fatal` models `log.Fatal` aborting the
whole process at a malformed field (lines 102, 108, 114, 120). -/
inductive Outcome where
  | closed
  | fatal
deriving DecidableEq

/-- Embeds the `produce` loop (src/main.go lines 89-132) over the list of
CSV rows before EOF: rows are parsed and published in order; the first
malformed row kills the run fatally, publishing nothing further. Returns
the transactions actually sent on the channel and how the run ended. -/
def produce : List Row → List transaction × Outcome
  | [] => ([], .closed)
  | row :: rows =>
    match parseRow row with
    | some transactionData =>
      let rest := produce rows
      (transactionData :: rest.1, rest.2)
    | none => ([], .fatal)

/-- State of the account-semaphore protocol of `consume`
(src/main.go lines 138-157), for an arbitrary set `W` of workers:
`holding w` is the account id whose permit worker `w` currently holds
(none when the worker is outside a read-modify-write cycle), and
`permits a` counts the permits currently held on account `a`'s semaphore.
(The source indexes the semaphore slice at `userID-1`; we key the same
permits by the account id itself.) -/
structure PoolState (W : Type) where
  holding : W → Option Int
  permits : Int → Nat

/-- Before any worker runs: no permit held. -/
def initPool (W : Type) : PoolState W :=
  { holding := fun _ => none, permits := fun _ => 0 }

/-- The two synchronization events of a consume iteration.
`acquire` models `semaphores[userID-1].Acquire(ctx, 1)` (line 141): a
weighted semaphore of capacity 1 lets the call complete only when no
permit is held; the worker must be outside any cycle (the loop body
acquires exactly once per transaction, never re-entrantly).
`release` models `semaphores[userID-1].Release(1)` (line 156). -/
inductive PoolStep {W : Type} [DecidableEq W] : PoolState W → PoolState W → Prop
  | acquire (s : PoolState W) (w : W) (a : Int) :
      s.holding w = none → s.permits a = 0 →
      PoolStep s
        { holding := fun v => if v = w then some a else s.holding v,
          permits := fun x => if x = a then s.permits x + 1 else s.permits x }
  | release (s : PoolState W) (w : W) (a : Int) :
      s.holding w = some a →
      PoolStep s
        { holding := fun v => if v = w then none else s.holding v,
          permits := fun x => if x = a then s.permits x - 1 else s.permits x }

/-- States of the semaphore protocol reachable under any scheduling. -/
inductive PoolReachable {W : Type} [DecidableEq W] : PoolState W → Prop
  | init : PoolReachable (initPool W)
  | step {s s' : PoolState W} : PoolReachable s → PoolStep s s' → PoolReachable s'

/-- State of the completion protocol of main (src/main.go lines 222-244):
`terminated` counts workers whose `done <- true` (line 160) has been
consumed after their range loop exited; `mainProceeded` records whether
main has executed its single `<-done` (line 241) and gone on to read the
final ledger (line 243). -/
structure DoneState where
  terminated : Nat
  mainProceeded : Bool
deriving DecidableEq

/-- Before any worker exits: no signal sent, main still blocked. -/
def initDone : DoneState := { terminated := 0, mainProceeded := false }

/-- Events of the completion protocol: one of the `consumerCount` workers
terminates and its done-signal is taken (workerExit), or main completes its
single receive — which needs only one prior worker termination — and
proceeds to the final ledger read (mainRecv). -/
inductive DoneStep : DoneState → DoneState → Prop
  | workerExit (s : DoneState) : s.terminated < consumerCount →
      DoneStep s { terminated := s.terminated + 1, mainProceeded := s.mainProceeded }
  | mainRecv (s : DoneState) : 1 ≤ s.terminated → s.mainProceeded = false →
      DoneStep s { terminated := s.terminated, mainProceeded := true }

/-- States of the completion protocol reachable under some scheduling. -/
inductive DoneReachable : DoneState → Prop
  | init : DoneReachable initDone
  | step {s s' : DoneState} : DoneReachable s → DoneStep s s' → DoneReachable s'

/-- The invariant of the account-semaphore protocol: no semaphore ever
holds more than one permit, a held account's permit count is exactly 1,
and no two workers hold the permit of the same account. -/
def PoolInv {W : Type} (s : PoolState W) : Prop :=
  (∀ a, s.permits a ≤ 1) ∧
  (∀ w a, s.holding w = some a → s.permits a = 1) ∧
  (∀ w w' a, s.holding w = some a → s.holding w' = some a → w = w')

/-- A sample pool state: worker 0 of a two-worker pool has acquired the
permit of account 3. -/
def poolS1 : PoolState (Fin 2) :=
  { holding := fun v => if v = 0 then some 3 else (initPool (Fin 2)).holding v,
    permits := fun x => if x = 3 then (initPool (Fin 2)).permits x + 1
               else (initPool (Fin 2)).permits x }

/-- A well-formed CSV row: all four fields numeric. -/
def rowGood : Row := { c0 := "1", c1 := "10", c2 := "2", c3 := "1" }

/-- A malformed CSV row: no field parses as a number. -/
def rowBad : Row := { c0 := "x", c1 := "x", c2 := "x", c3 := "x" }

/-- A sample input batch whose second record is malformed. -/
def rows0 : List Row := [rowGood, rowBad]

/-- C3: for a WITHDRAW transaction (type code 1) on an existing account, a
sufficient balance is replaced by balance minus amount, and an insufficient
balance leaves the whole ledger unchanged (silent drop, no error). -/
theorem withdraw_spec (t : transaction) (l : Ledger) (a : account)
    (hk : t.transactionType = 1) (ha : l t.userID = some a) :
    (a.value ≥ t.value →
      applyTransaction l t =
        mapPut l t.userID { id := a.id, name := a.name, value := a.value - t.value }) ∧
    (¬ a.value ≥ t.value → applyTransaction l t = l) := by
  constructor <;> intro hv <;>
    simp [applyTransaction, hk, withdraw, mapGet, ha, hv]

/-- C3 witness: seed account 5 (Fernando, balance 1.00) receiving a WITHDRAW
of 50.00 is silently dropped: the ledger is untouched. -/
theorem withdraw_spec_witness :
    accountList 5 = some { id := 5, name := "Fernando", value := 1 } ∧
    ¬ ((1 : ℚ) ≥ 50) ∧
    applyTransaction accountList { id := 100, value := 50, transactionType := 1, userID := 5 } = accountList := by
  refine ⟨by decide, by norm_num, ?_⟩
  exact (withdraw_spec { id := 100, value := 50, transactionType := 1, userID := 5 }
    accountList { id := 5, name := "Fernando", value := 1 } rfl (by decide)).2 (by norm_num)

/-- C4: for a DEPOSIT transaction (type code 2) on an existing account, the
transaction always succeeds: the stored account becomes the one read at
application time with balance plus amount, with no precondition. -/
theorem deposit_spec (t : transaction) (l : Ledger) (a : account)
    (hk : t.transactionType = 2) (ha : l t.userID = some a) :
    applyTransaction l t =
      mapPut l t.userID { id := a.id, name := a.name, value := a.value + t.value } ∧
    (applyTransaction l t) t.userID =
      some { id := a.id, name := a.name, value := a.value + t.value } := by
  have h2 : applyTransaction l t =
      mapPut l t.userID { id := a.id, name := a.name, value := a.value + t.value } := by
    simp [applyTransaction, hk, deposit, mapGet, ha]
  exact ⟨h2, by rw [h2]; simp [mapPut]⟩

/-- C4 witness: depositing 10 into seed account 1 (Yuri, balance 200000)
stores balance 200010. -/
theorem deposit_spec_witness :
    accountList 1 = some { id := 1, name := "Yuri", value := 200000 } ∧
    (applyTransaction accountList { id := 101, value := 10, transactionType := 2, userID := 1 } =
       mapPut accountList 1 { id := 1, name := "Yuri", value := 200000 + 10 } ∧
     (applyTransaction accountList { id := 101, value := 10, transactionType := 2, userID := 1 }) 1 =
       some { id := 1, name := "Yuri", value := 200000 + 10 }) :=
  ⟨by decide,
   deposit_spec { id := 101, value := 10, transactionType := 2, userID := 1 }
     accountList { id := 1, name := "Yuri", value := 200000 } rfl (by decide)⟩

/-- C10: `withdraw` and `deposit` touch at most the entry keyed by
`t.userID` — every other key reads back unchanged — and when the entry for
`t.userID` exists, the account stored there afterwards keeps its id and
name; only the balance changes. -/
theorem frame_effect (t : transaction) (l : Ledger) (k : Int) (a : account)
    (hk : k ≠ t.userID) (ha : l t.userID = some a) :
    withdraw t l k = l k ∧ deposit t l k = l k ∧
    (mapGet (withdraw t l) t.userID).id = a.id ∧
    (mapGet (withdraw t l) t.userID).name = a.name ∧
    (mapGet (deposit t l) t.userID).id = a.id ∧
    (mapGet (deposit t l) t.userID).name = a.name := by
  have hga : mapGet l t.userID = a := by simp [mapGet, ha]
  have hw : withdraw t l k = l k := by
    unfold withdraw
    by_cases hc : (mapGet l t.userID).value ≥ t.value
    · simp [hc, mapPut, hk]
    · simp [hc]
  have hd : deposit t l k = l k := by
    unfold deposit
    simp [mapPut, hk]
  have hwg : (mapGet (withdraw t l) t.userID).id = a.id ∧
      (mapGet (withdraw t l) t.userID).name = a.name := by
    simp only [withdraw]
    rw [hga]
    split
    · simp [mapGet, mapPut]
    · rw [hga]
      exact ⟨rfl, rfl⟩
  have hdg : (mapGet (deposit t l) t.userID).id = a.id ∧
      (mapGet (deposit t l) t.userID).name = a.name := by
    simp only [deposit]
    rw [hga]
    simp [mapGet, mapPut]
  exact ⟨hw, hd, hwg.1, hwg.2, hdg.1, hdg.2⟩

/-- C10 witness: a transaction on account 1 leaves the entry for key 2
untouched, and the rewritten entry for key 1 keeps id 1 and name Yuri. -/
theorem frame_effect_witness :
    ((2 : Int) ≠ 1) ∧
    accountList 1 = some { id := 1, name := "Yuri", value := 200000 } ∧
    (withdraw { id := 102, value := 10, transactionType := 1, userID := 1 } accountList 2 = accountList 2 ∧
     deposit { id := 102, value := 10, transactionType := 1, userID := 1 } accountList 2 = accountList 2 ∧
     (mapGet (withdraw { id := 102, value := 10, transactionType := 1, userID := 1 } accountList) 1).id = 1 ∧
     (mapGet (withdraw { id := 102, value := 10, transactionType := 1, userID := 1 } accountList) 1).name = "Yuri" ∧
     (mapGet (deposit { id := 102, value := 10, transactionType := 1, userID := 1 } accountList) 1).id = 1 ∧
     (mapGet (deposit { id := 102, value := 10, transactionType := 1, userID := 1 } accountList) 1).name = "Yuri") :=
  ⟨by decide, by decide,
   frame_effect { id := 102, value := 10, transactionType := 1, userID := 1 }
     accountList 2 { id := 1, name := "Yuri", value := 200000 } (by decide) (by decide)⟩

/-- C6: in the seed map literal, the entry under key 8 stores the account
`{id: 7, name: "Paula"}`, so the map key differs from the stored id, and id
7 is also the id stored under key 7 — account ids are not unique. -/
theorem accountList_keyMismatch :
    accountList 8 = some { id := 7, name := "Paula", value := 27000 } ∧
    accountList 7 = some { id := 7, name := "Christian", value := 20000 } ∧
    (8 : Int) ≠ 7 := ⟨by decide, by decide, by decide⟩

/-- C7: a transaction whose userID is below 1 or above the number of seeded
accounts indexes the semaphore slice out of bounds: the consume iteration
faults, and the ledger it hands back is exactly the unmodified input. -/
theorem consume_unknownAccount_faults (t : transaction) (l : Ledger)
    (h : t.userID < 1 ∨ t.userID > (seedAccounts.length : Int)) :
    consumeStep l t = .fault l := by
  have hn : ¬ (0 ≤ t.userID - 1 ∧ t.userID - 1 < (semaphoreCount : Int)) := by
    unfold semaphoreCount
    rcases h with h | h <;> omega
  unfold consumeStep
  exact if_neg hn

/-- C7 witness: a transaction on account id 9 (there are 8 seed accounts)
faults without touching the seed ledger. -/
theorem consume_unknownAccount_faults_witness :
    ((9 : Int) > (seedAccounts.length : Int)) ∧
    consumeStep accountList { id := 103, value := 10, transactionType := 2, userID := 9 } =
      .fault accountList :=
  ⟨by decide,
   consume_unknownAccount_faults { id := 103, value := 10, transactionType := 2, userID := 9 }
     accountList (Or.inr (by decide))⟩

/-- C9 counterexample: the stream consisting of the single WITHDRAW of 1.00
from seed account 5 (balance 1.00) contains an applied withdrawal (first
conjunct: the first pass changes the balance to 0), yet applying the stream
twice yields exactly the ledger of applying it once — the second
application does not change balances again. -/
theorem applyTwice_counterexample :
    (applyAll accountList [{ id := 300, value := 1, transactionType := 1, userID := 5 }]) 5 =
      some { id := 5, name := "Fernando", value := 0 } ∧
    applyAll (applyAll accountList [{ id := 300, value := 1, transactionType := 1, userID := 5 }])
        [{ id := 300, value := 1, transactionType := 1, userID := 5 }] =
      applyAll accountList [{ id := 300, value := 1, transactionType := 1, userID := 5 }] := by
  have h5 : accountList 5 = some { id := 5, name := "Fernando", value := 1 } := by decide
  have h1 : applyAll accountList [{ id := 300, value := 1, transactionType := 1, userID := 5 }] =
      mapPut accountList 5 { id := 5, name := "Fernando", value := 0 } := by
    show applyTransaction accountList { id := 300, value := 1, transactionType := 1, userID := 5 } = _
    norm_num [applyTransaction, withdraw, mapGet, h5]
  constructor
  · rw [h1]; simp [mapPut]
  · show applyTransaction
        (applyAll accountList [{ id := 300, value := 1, transactionType := 1, userID := 5 }])
        { id := 300, value := 1, transactionType := 1, userID := 5 } =
      applyAll accountList [{ id := 300, value := 1, transactionType := 1, userID := 5 }]
    rw [h1]
    norm_num [applyTransaction, withdraw, mapGet, mapPut]

/-- C9 (amended): no deduplication by transaction id occurs — applying a
stream with a single deposit (same transaction id both times) twice moves
seed account 1 from 200000 to 200020, different from the 200010 of a
single application. -/
theorem applyTwice_changesAgain :
    (applyAll accountList [{ id := 1, value := 10, transactionType := 2, userID := 1 }]) 1 =
      some { id := 1, name := "Yuri", value := 200010 } ∧
    (applyAll (applyAll accountList [{ id := 1, value := 10, transactionType := 2, userID := 1 }])
        [{ id := 1, value := 10, transactionType := 2, userID := 1 }]) 1 =
      some { id := 1, name := "Yuri", value := 200020 } ∧
    (applyAll (applyAll accountList [{ id := 1, value := 10, transactionType := 2, userID := 1 }])
        [{ id := 1, value := 10, transactionType := 2, userID := 1 }]) 1 ≠
      (applyAll accountList [{ id := 1, value := 10, transactionType := 2, userID := 1 }]) 1 := by
  have hy : accountList 1 = some { id := 1, name := "Yuri", value := 200000 } := by decide
  have h1 : applyAll accountList [{ id := 1, value := 10, transactionType := 2, userID := 1 }] =
      mapPut accountList 1 { id := 1, name := "Yuri", value := 200010 } := by
    show applyTransaction accountList { id := 1, value := 10, transactionType := 2, userID := 1 } = _
    norm_num [applyTransaction, deposit, mapGet, hy]
  have h2 : applyAll (applyAll accountList [{ id := 1, value := 10, transactionType := 2, userID := 1 }])
        [{ id := 1, value := 10, transactionType := 2, userID := 1 }] =
      mapPut (mapPut accountList 1 { id := 1, name := "Yuri", value := 200010 }) 1
        { id := 1, name := "Yuri", value := 200020 } := by
    show applyTransaction
        (applyAll accountList [{ id := 1, value := 10, transactionType := 2, userID := 1 }])
        { id := 1, value := 10, transactionType := 2, userID := 1 } = _
    rw [h1]
    norm_num [applyTransaction, deposit, mapGet, mapPut]
  refine ⟨by rw [h1]; simp [mapPut], by rw [h2]; simp [mapPut], ?_⟩
  rw [h2, h1]
  norm_num [mapPut]

/-- Equality of stored accounts that differ only in how the balance is
written. -/
theorem someAccount_val_eq (i : Int) (n : String) (x y : ℚ) (h : x = y) :
    some (account.mk i n x) = some (account.mk i n y) := by rw [h]

/-- C5: a batch of transactions all targeting one existing account, applied
sequentially in order, leaves that account with its seed balance plus the
sum of the deposit amounts minus the sum of the amounts of the
successfully-applied withdrawals, and keeps its id and name. -/
theorem applyAll_balance (ts : List transaction) (uid : Int) (a : account) (l : Ledger)
    (hall : ∀ t ∈ ts, t.userID = uid) (ha : l uid = some a) :
    (applyAll l ts) uid =
      some { id := a.id, name := a.name,
             value := a.value + depositSum ts - appliedWithdrawSum a.value ts } := by
  induction ts generalizing a l with
  | nil => simp [applyAll, depositSum, appliedWithdrawSum, ha]
  | cons t ts ih =>
    have ht : t.userID = uid := hall t (by simp)
    have hall2 : ∀ x ∈ ts, x.userID = uid := fun x hx => hall x (by simp [hx])
    have hstep : applyAll l (t :: ts) = applyAll (applyTransaction l t) ts := rfl
    rw [hstep]
    have hget : mapGet l uid = a := by simp [mapGet, ha]
    by_cases h1 : t.transactionType = 1
    · by_cases hv : a.value ≥ t.value
      · have happ : applyTransaction l t =
            mapPut l uid { id := a.id, name := a.name, value := a.value - t.value } := by
          simp [applyTransaction, h1, withdraw, ht, hget, hv]
        rw [happ,
          ih { id := a.id, name := a.name, value := a.value - t.value }
            (mapPut l uid { id := a.id, name := a.name, value := a.value - t.value })
            hall2 (by simp [mapPut])]
        apply someAccount_val_eq
        simp [depositSum, appliedWithdrawSum, h1, hv]
        ring
      · have happ : applyTransaction l t = l := by
          simp [applyTransaction, h1, withdraw, ht, hget, hv]
        rw [happ, ih a l hall2 ha]
        apply someAccount_val_eq
        simp [depositSum, appliedWithdrawSum, h1, hv]
    · by_cases h2 : t.transactionType = 2
      · have happ : applyTransaction l t =
            mapPut l uid { id := a.id, name := a.name, value := a.value + t.value } := by
          simp [applyTransaction, h1, h2, deposit, ht, hget]
        rw [happ,
          ih { id := a.id, name := a.name, value := a.value + t.value }
            (mapPut l uid { id := a.id, name := a.name, value := a.value + t.value })
            hall2 (by simp [mapPut])]
        apply someAccount_val_eq
        simp [depositSum, appliedWithdrawSum, h1, h2]
        ring
      · have happ : applyTransaction l t = l := by
          simp [applyTransaction, h1, h2]
        rw [happ, ih a l hall2 ha]
        apply someAccount_val_eq
        simp [depositSum, appliedWithdrawSum, h1, h2]

/-- C5 witness: on seed account 1 (Yuri, 200000), the batch
[deposit 30, withdraw 20] yields 200000 + depositSum - appliedWithdrawSum. -/
theorem applyAll_balance_witness :
    (∀ t ∈ ([{ id := 1, value := 30, transactionType := 2, userID := 1 },
             { id := 2, value := 20, transactionType := 1, userID := 1 }] : List transaction),
        t.userID = 1) ∧
    accountList 1 = some { id := 1, name := "Yuri", value := 200000 } ∧
    (applyAll accountList
        [{ id := 1, value := 30, transactionType := 2, userID := 1 },
         { id := 2, value := 20, transactionType := 1, userID := 1 }]) 1 =
      some { id := 1, name := "Yuri",
             value := 200000 +
               depositSum [{ id := 1, value := 30, transactionType := 2, userID := 1 },
                           { id := 2, value := 20, transactionType := 1, userID := 1 }] -
               appliedWithdrawSum 200000
                 [{ id := 1, value := 30, transactionType := 2, userID := 1 },
                  { id := 2, value := 20, transactionType := 1, userID := 1 }] } :=
  ⟨by decide, by decide,
   applyAll_balance
     [{ id := 1, value := 30, transactionType := 2, userID := 1 },
      { id := 2, value := 20, transactionType := 1, userID := 1 }]
     1 { id := 1, name := "Yuri", value := 200000 } accountList (by decide) (by decide)⟩

/-- C8: if the record at position `i` of the input has a field that fails
to parse, the run ends fatally, and every transaction actually published
onto the work queue was built from a record strictly before position `i` —
nothing from the malformed record or any later record is published. -/
theorem produce_fatalOnMalformed (rows : List Row) (i : Nat) (hi : i < rows.length)
    (hbad : parseRow (rows.get ⟨i, hi⟩) = none) :
    (produce rows).2 = .fatal ∧
    ∀ t ∈ (produce rows).1,
      ∃ j, ∃ hj : j < rows.length, j < i ∧ parseRow (rows.get ⟨j, hj⟩) = some t := by
  induction rows generalizing i with
  | nil => exact absurd hi (Nat.not_lt_zero i)
  | cons r rs ih =>
    cases i with
    | zero =>
      have hb : parseRow r = none := hbad
      refine ⟨by simp [produce, hb], ?_⟩
      intro t htmem
      simp [produce, hb] at htmem
    | succ n =>
      have hn : n < rs.length := Nat.lt_of_succ_lt_succ hi
      have hb : parseRow (rs.get ⟨n, hn⟩) = none := hbad
      cases hr : parseRow r with
      | none =>
        refine ⟨by simp [produce, hr], ?_⟩
        intro t htmem
        simp [produce, hr] at htmem
      | some t0 =>
        have ihh := ih n hn hb
        constructor
        · simpa [produce, hr] using ihh.1
        · intro t htmem
          have hcases : t = t0 ∨ t ∈ (produce rs).1 := by
            simpa [produce, hr] using htmem
          rcases hcases with h | h
          · exact ⟨0, Nat.succ_pos _, Nat.succ_pos _, by simp [hr, h]⟩
          · rcases ihh.2 t h with ⟨j, hj, hji, hpj⟩
            exact ⟨j + 1, Nat.succ_lt_succ hj, Nat.succ_lt_succ hji, hpj⟩

/-- C8 witness: in the batch `rows0` the second record is malformed: the
run is fatal and every published transaction comes from record 0. -/
theorem produce_fatalOnMalformed_witness :
    (1 < rows0.length) ∧ parseRow rowBad = none ∧
    ((produce rows0).2 = .fatal ∧
     ∀ t ∈ (produce rows0).1,
       ∃ j, ∃ hj : j < rows0.length, j < 1 ∧ parseRow (rows0.get ⟨j, hj⟩) = some t) :=
  ⟨by decide, by decide, produce_fatalOnMalformed rows0 1 (by decide) (by decide)⟩

/-- The permit invariant holds initially: nothing is held. -/
theorem poolInv_init (W : Type) : PoolInv (initPool W) :=
  ⟨fun _ => by simp [initPool],
   fun w a hw => by simp [initPool] at hw,
   fun w w' a hw _ => by simp [initPool] at hw⟩

/-- The permit invariant is preserved by every acquire/release event. -/
theorem poolInv_step {W : Type} [DecidableEq W] {s s' : PoolState W}
    (hinv : PoolInv s) (hstep : PoolStep s s') : PoolInv s' := by
  obtain ⟨h1, h2, h3⟩ := hinv
  cases hstep with
  | acquire w a hw hp =>
    refine ⟨?_, ?_, ?_⟩
    · intro b
      have hh := h1 b
      by_cases hb : b = a
      · subst hb
        simp [hp]
      · simpa [hb] using hh
    · intro v b hv
      by_cases hvw : v = w
      · simp [hvw] at hv
        simp [← hv, hp]
      · simp [hvw] at hv
        by_cases hb : b = a
        · rw [hb] at hv
          have h21 := h2 v a hv
          simp [hb]
          omega
        · simpa [hb] using h2 v b hv
    · intro v v' b hv hv'
      by_cases hvw : v = w <;> by_cases hvw' : v' = w
      · rw [hvw, hvw']
      · simp [hvw] at hv
        simp [hvw'] at hv'
        rw [← hv] at hv'
        have h21 := h2 v' a hv'
        omega
      · simp [hvw] at hv
        simp [hvw'] at hv'
        rw [← hv'] at hv
        have h21 := h2 v a hv
        omega
      · simp [hvw] at hv
        simp [hvw'] at hv'
        exact h3 v v' b hv hv'
  | release w a hw =>
    refine ⟨?_, ?_, ?_⟩
    · intro b
      have hh := h1 b
      by_cases hb : b = a
      · subst hb
        simp
        omega
      · simpa [hb] using hh
    · intro v b hv
      by_cases hvw : v = w
      · simp [hvw] at hv
      · simp [hvw] at hv
        by_cases hb : b = a
        · rw [hb] at hv
          exact absurd (h3 v w a hv hw) hvw
        · simpa [hb] using h2 v b hv
    · intro v v' b hv hv'
      by_cases hvw : v = w
      · simp [hvw] at hv
      · by_cases hvw' : v' = w
        · simp [hvw'] at hv'
        · simp [hvw] at hv
          simp [hvw'] at hv'
          exact h3 v v' b hv hv'

/-- The permit invariant holds in every reachable state. -/
theorem poolInv_reachable {W : Type} [DecidableEq W] {s : PoolState W}
    (h : PoolReachable s) : PoolInv s := by
  induction h with
  | init => exact poolInv_init W
  | step _ hs ih => exact poolInv_step ih hs

/-- C2: in every state of the semaphore protocol reachable under any
scheduling and for any worker set, each account's semaphore holds at most
one permit, and no two distinct workers are simultaneously inside the
permit-guarded read-modify-write region for the same account. -/
theorem consume_mutualExclusion (W : Type) [DecidableEq W] (s : PoolState W)
    (h : PoolReachable s) (a : Int) :
    s.permits a ≤ 1 ∧
    ∀ w w' : W, s.holding w = some a → s.holding w' = some a → w = w' := by
  obtain ⟨h1, _, h3⟩ := poolInv_reachable h
  exact ⟨h1 a, fun w w' hw hw' => h3 w w' a hw hw'⟩

/-- C2 witness: the state in which worker 0 of a two-worker pool holds the
permit of account 3 is reachable, and there the permit count of account 3
is at most 1 with worker uniqueness. -/
theorem consume_mutualExclusion_witness :
    PoolReachable poolS1 ∧
    (poolS1.permits 3 ≤ 1 ∧
     ∀ w w' : Fin 2, poolS1.holding w = some 3 → poolS1.holding w' = some 3 → w = w') :=
  have hr : PoolReachable poolS1 :=
    PoolReachable.step PoolReachable.init (PoolStep.acquire (initPool (Fin 2)) 0 3 rfl rfl)
  ⟨hr, consume_mutualExclusion (Fin 2) poolS1 hr 3⟩

/-- C1: the completion protocol of main reaches a state in which main has
completed its single receive on the done channel and proceeded to the final
ledger read while only 1 of the consumerCount = 50 pool workers has
terminated — completion is reported before every worker has exited. -/
theorem main_readsBeforeAllWorkersExit :
    ∃ s : DoneState, DoneReachable s ∧ s.mainProceeded = true ∧
      s.terminated = 1 ∧ s.terminated < consumerCount :=
  ⟨{ terminated := 1, mainProceeded := true },
   DoneReachable.step
     (DoneReachable.step DoneReachable.init
       (DoneStep.workerExit initDone (by decide)))
     (DoneStep.mainRecv { terminated := 1, mainProceeded := false } (by decide) rfl),
   rfl, rfl, by decide⟩
